import Mathlib

/-!
Shallow embedding of `paddlespeech/server/engine/tts/online/tts_engine.py`
(streaming TTS server engine): the chunked streaming synthesis loop of
`TTSServerExecutor.infer` and the audio post-processing chain of
`TTSEngine.postprocess` and `TTSEngine.run`.

Conventions used throughout:
* audio samples are rationals, an exact model of the floating-point sample
  values flowing through the Python code;
* byte strings are `List Nat` with every entry `< 256`;
* base64 text is a `List Nat` of symbols: values `0..63` stand for the
  sextet characters of the standard base64 alphabet (a fixed bijection
  with the characters, so nothing is lost by not using `Char`) and `64`
  stands for the padding character;
* external collaborators (the librosa resampler, the sox speed transform,
  the vocoder, the text frontend, the filesystem) enter as oracle
  parameters, as the spec treats them as opaque;
* a Python call that may raise is modelled with `Except PyErr`.
-/

namespace TTSOnline

/-- Python exceptions that the embedded code can surface. -/
inductive PyErr where
  /-- NameError: a local variable was read while unbound. -/
  | nameError
  /-- ServerBaseException, the error type raised by the server utilities
  and re-raised by `postprocess` for a failed speed change. -/
  | serverBaseException
  /-- ConfigurationError, the fail-fast error the spec mandates for an
  unsupported language (no such exception exists in the source). -/
  | configurationError
  /-- OSError or any I/O failure while writing an output file. -/
  | osError
deriving DecidableEq, Repr

/-- Padding symbol of the base64 alphabet (stands for the character =). -/
def b64Pad : Nat := 64

/-- Modelled from the spec: `base64.b64encode` (the Python `base64` module
is outside the reviewed source).  Bytes are grouped in threes; each full
group becomes four sextets; a trailing group of one byte yields two
sextets plus two padding symbols, of two bytes three sextets plus one
padding symbol. -/
def b64encode : List Nat → List Nat
  | [] => []
  | [a] => [a / 4, a % 4 * 16, b64Pad, b64Pad]
  | [a, b] => [a / 4, a % 4 * 16 + b / 16, b % 16 * 4, b64Pad]
  | a :: b :: c :: rest =>
      a / 4 :: (a % 4 * 16 + b / 16) :: (b % 16 * 4 + c / 64) :: c % 64 ::
        b64encode rest

/-- Modelled from the spec: `base64.b64decode`, the inverse of `b64encode`
on well-formed symbol streams. -/
def b64decode : List Nat → List Nat
  | w :: x :: y :: z :: rest =>
      if y = b64Pad then [w * 4 + x / 16]
      else if z = b64Pad then [w * 4 + x / 16, x % 16 * 16 + y / 4]
      else (w * 4 + x / 16) :: (x % 16 * 16 + y / 4) :: (y % 4 * 64 + z) ::
        b64decode rest
  | _ => []

/-- Modelled from the spec: `float2pcm` (imported from
`paddlespeech.server.utils.audio_process`, outside the reviewed source):
convert a floating-point sample in [-1, 1] to a signed 16-bit PCM value by
linear scaling, round(sample * 32767) clamped to the 16-bit range. -/
def float2pcm (x : ℚ) : ℤ := max (-32768) (min 32767 (round (x * 32767)))

/-- Little-endian byte pair of a 16-bit value. -/
def le16 (n : Nat) : List Nat := [n % 256, n / 256 % 256]

/-- Little-endian byte quadruple of a 32-bit value. -/
def le32 (n : Nat) : List Nat :=
  [n % 256, n / 256 % 256, n / 65536 % 256, n / 16777216 % 256]

/-- Two's-complement little-endian bytes of one signed 16-bit PCM sample. -/
def pcm16Bytes (x : ℚ) : List Nat := le16 ((float2pcm x) % 65536).toNat

/-- Raw 16-bit PCM data bytes of a waveform (sample-wise little-endian),
the layout produced by `numpy.ndarray.tobytes` on an int16 array. -/
def pcmBytes (wav : List ℚ) : List Nat := wav.flatMap pcm16Bytes

/-- Modelled from the spec: the 44-byte RIFF/WAVE header for 16-bit PCM
mono data, as written by `scipy.io.wavfile.write` ahead of the data bytes
(the spec's Encode step: PCM samples wrapped in a standard container). -/
def wavHeader (rate : Nat) (numSamples : Nat) : List Nat :=
  [82, 73, 70, 70] ++ le32 (36 + 2 * numSamples) ++ [87, 65, 86, 69] ++
  [102, 109, 116, 32] ++ le32 16 ++ le16 1 ++ le16 1 ++ le32 rate ++
  le32 (2 * rate) ++ le16 2 ++ le16 16 ++
  [100, 97, 116, 97] ++ le32 (2 * numSamples)

/-- Modelled from the spec: the full RIFF/WAVE container bytes for a
waveform at the given sample rate. -/
def wavContainer (rate : Nat) (wav : List ℚ) : List Nat :=
  wavHeader rate wav.length ++ pcmBytes wav

/-- Signed 16-bit little-endian decoding of a PCM byte stream (byte pairs
to samples), the inverse view used to read the data segment back. -/
def int16OfBytes : List Nat → List ℤ
  | lo :: hi :: rest =>
      (if lo + 256 * hi < 32768 then ((lo + 256 * hi : Nat) : ℤ)
       else (lo : ℤ) + 256 * hi - 65536) :: int16OfBytes rest
  | _ => []

/-- A Python io BytesIO object: backing bytes plus the stream position. -/
structure ByteStream where
  data : List Nat
  pos : Nat
deriving DecidableEq, Repr

/-- Reading the stream returns the bytes from the current position onward
(BytesIO read semantics). -/
def ByteStream.readAll (s : ByteStream) : List Nat := s.data.drop s.pos

/-- Modelled from the spec: `scipy.io.wavfile.write` on a file-like object
writes the RIFF/WAVE container bytes and, in its final cleanup, seeks the
file-like object back to position 0 (it closes only named files), so a
subsequent read returns the whole container. -/
def wavfile_write (s : ByteStream) (rate : Nat) (wav : List ℚ) : ByteStream :=
  ⟨s.data ++ wavContainer rate wav, 0⟩

/-- Modelled from the spec: `get_chunks` is imported from
`paddlespeech.server.utils.util`, outside the reviewed source.  Per the
Chunker contract it cuts a length-`L` frame sequence into
`ceil(L / block)` chunks. -/
def numChunks (L block : Nat) : Nat := (L + block - 1) / block

/-- Start of chunk `i`'s extended range: `i*block - pad` clipped at 0
(truncated subtraction performs the clipping). -/
def extStart (block pad i : Nat) : Nat := i * block - pad

/-- End of chunk `i`'s extended range: `(i+1)*block + pad` clipped at `L`. -/
def extEnd (L block pad i : Nat) : Nat := min ((i + 1) * block + pad) L

/-- Number of frames handed to the vocoder for chunk `i`. -/
def extLen (L block pad i : Nat) : Nat :=
  extEnd L block pad i - extStart block pad i

/-- Length of chunk `i`'s core range `[i*block, min((i+1)*block, L))`. -/
def coreLen (L block i : Nat) : Nat := min ((i + 1) * block) L - i * block

/-- Python slice `xs[a:b]` for nonnegative bounds: drop `a`, keep up to
`b - a` elements. -/
def pySlice (xs : List ℚ) (a b : Nat) : List ℚ := (xs.drop a).take (b - a)

/-- Embeds the per-chunk trimming of `TTSServerExecutor.infer`
(tts_engine.py lines 106-113): `front_pad = min(i*voc_block, voc_pad)`;
chunk 0 keeps `sub_wav[:voc_block*voc_upsample]`, the last chunk keeps
`sub_wav[front_pad*voc_upsample:]`, an interior chunk keeps
`sub_wav[front_pad*voc_upsample : (front_pad+voc_block)*voc_upsample]`. -/
def trim (sub_wav : List ℚ) (voc_block voc_pad voc_upsample i chunk_num : Nat) :
    List ℚ :=
  let front_pad := min (i * voc_block) voc_pad
  if i = 0 then sub_wav.take (voc_block * voc_upsample)
  else if i = chunk_num - 1 then sub_wav.drop (front_pad * voc_upsample)
  else pySlice sub_wav (front_pad * voc_upsample)
    ((front_pad + voc_block) * voc_upsample)

/-- Stated from the spec, for comparison with `trim` (Overlap Trimmer
contract): chunk 0 keeps the first `coreLength*upsampleRatio` samples, the
last chunk drops the first `frontPad*upsampleRatio` samples and keeps the
remainder, an interior chunk drops the first `frontPad*upsampleRatio`
samples and keeps exactly the next `coreLength*upsampleRatio` samples. -/
def trimSpec (raw : List ℚ)
    (frontPad chunkIdx totalChunks coreLength upsampleRatio : Nat) : List ℚ :=
  if chunkIdx = 0 then raw.take (coreLength * upsampleRatio)
  else if chunkIdx = totalChunks - 1 then raw.drop (frontPad * upsampleRatio)
  else (raw.drop (frontPad * upsampleRatio)).take (coreLength * upsampleRatio)

/-- One sentence's streamed trimmed chunk outputs, in index order (the
vocoder loop of `TTSServerExecutor.infer`, lines 104-115, with the
external vocoder abstracted as the oracle `voc`). -/
def inferChunkOutputs (voc : Nat → List ℚ) (L block pad ratio : Nat) :
    List (List ℚ) :=
  (List.range (numChunks L block)).map
    (fun i => trim (voc i) block pad ratio i (numChunks L block))

/-- Observable events of the streaming generator loop: a vocoder
invocation for chunk `i`, or the yield of chunk `i`'s trimmed audio. -/
inductive Event where
  | vocCall (i : Nat)
  | yieldChunk (i : Nat) (wav : List ℚ)
deriving DecidableEq, Repr

/-- Embeds the control flow of the vocoder loop (lines 104-115): for each
chunk index in order the generator calls the vocoder on that chunk, trims
the result, and immediately yields it, producing this event trace. -/
def inferTrace (voc : Nat → List ℚ) (block pad ratio chunkNum : Nat) :
    List Event :=
  (List.range chunkNum).flatMap
    (fun i => [Event.vocCall i,
      Event.yieldChunk i (trim (voc i) block pad ratio i chunkNum)])

/-- Embeds the language dispatch of `TTSServerExecutor.infer` (lines
66-79): for zh and en the external frontend call produces the per
sentence phone id sequences (oracles `zhIds`, `enIds`); for any other
language the code only prints a warning and leaves the local variable
`phone_ids` unbound. -/
def inferPhoneIds (lang : String) (zhIds enIds : List (List Nat)) :
    Option (List (List Nat)) :=
  if lang = "zh" then some zhIds
  else if lang = "en" then some enIds
  else none

/-- Embeds what `infer` does next (line 82): the sentence loop immediately
reads `phone_ids`; if no branch bound it, Python raises NameError there,
before any acoustic-model or vocoder call. -/
def inferFrontendStep (lang : String) (zhIds enIds : List (List Nat)) :
    Except PyErr (List (List Nat)) :=
  match inferPhoneIds lang zhIds enIds with
  | some ids => Except.ok ids
  | none => Except.error PyErr.nameError

/-- Resample step of `TTSEngine.postprocess` (lines 208-220): when the
requested rate is 0 or above the native rate, keep the native rate and the
waveform unchanged; otherwise call the external librosa resampler (oracle
`resample`).  The `np.squeeze` on a one-dimensional waveform is the
identity and is elided.  Returns the reported rate and the waveform that
enters the volume step. -/
def resampleStage (resample : List ℚ → Nat → Nat → List ℚ)
    (wav : List ℚ) (original_fs target_fs : Nat) : Nat × List ℚ :=
  if target_fs = 0 ∨ original_fs < target_fs then (original_fs, wav)
  else (target_fs, resample wav original_fs target_fs)

/-- Modelled from the spec: `change_speed` (imported from
`paddlespeech.server.utils.audio_process`, outside the reviewed source).
Speed 1.0 returns the samples unchanged; otherwise the sox-based
time-scale transform (oracle `speedFn`) runs when the platform capability
`soxAvailable` holds, and an unavailable mechanism surfaces as the
recoverable server error (the spec's SpeedChangeUnsupportedError). -/
def change_speed (soxAvailable : Bool) (speedFn : List ℚ → ℚ → List ℚ)
    (wav : List ℚ) (speed : ℚ) : Except PyErr (List ℚ) :=
  if speed = 1 then Except.ok wav
  else if soxAvailable then Except.ok (speedFn wav speed)
  else Except.error PyErr.serverBaseException

/-- Speed step of `postprocess` (lines 225-235): `change_speed` inside
try/except.  A ServerBaseException is re-raised as a ServerBaseException
(lines 229-233); any other exception is only logged (lines 234-235),
which leaves the local `wav_speed` unbound, so the next read of it at
line 239 raises NameError. -/
def speedStage (soxAvailable : Bool) (speedFn : List ℚ → ℚ → List ℚ)
    (wav_vol : List ℚ) (speed : ℚ) : Except PyErr (List ℚ) :=
  match change_speed soxAvailable speedFn wav_vol speed with
  | Except.ok w => Except.ok w
  | Except.error PyErr.serverBaseException =>
      Except.error PyErr.serverBaseException
  | Except.error _ => Except.error PyErr.nameError

/-- The waveform that reaches the encoder: resampled, volume-scaled, then
speed-transformed samples (or the exception of the speed step). -/
def processedWav (resample : List ℚ → Nat → Nat → List ℚ)
    (speedFn : List ℚ → ℚ → List ℚ) (soxAvailable : Bool)
    (wav : List ℚ) (original_fs target_fs : Nat) (volume speed : ℚ) :
    Except PyErr (List ℚ) :=
  speedStage soxAvailable speedFn
    ((resampleStage resample wav original_fs target_fs).2.map
      (fun s => s * volume))
    speed

/-- An output path, modelled by which suffix test of the source it
passes: the save dispatch at lines 245-253 depends only on the results of
the two endswith tests, so a path is a name ending in .wav, a name ending
in .pcm, or any other name. -/
inductive AudioPath where
  /-- A path whose name ends in .wav (written via soundfile). -/
  | wavFile
  /-- A path whose name ends in .pcm (written as raw peak-normalized
  int16 samples). -/
  | pcmFile
  /-- Any other path: no write happens, yet success is logged. -/
  | otherFile
deriving DecidableEq, Repr

/-- Embeds `TTSEngine.postprocess` (lines 184-257).  External
collaborators are oracles: `resample` (librosa), `speedFn` (sox time
scale), `soxAvailable` (platform speed-change capability), `writeOk`
(whether writing `audio_path` succeeds).  The encode step (lines 237-242)
writes the WAV container into a fresh BytesIO buffer and base64-encodes
what it reads back from it; the save step (lines 244-255) writes the
output file, with any write failure propagating (the source has no
try/except around it).  Returns the reported sample rate and the base64
symbols of the container, or the propagated Python exception. -/
def postprocess (resample : List ℚ → Nat → Nat → List ℚ)
    (speedFn : List ℚ → ℚ → List ℚ) (soxAvailable : Bool) (writeOk : Bool)
    (wav : List ℚ) (original_fs target_fs : Nat) (volume speed : ℚ)
    (audio_path : Option AudioPath) : Except PyErr (Nat × List Nat) :=
  let rs := resampleStage resample wav original_fs target_fs
  let wav_vol := rs.2.map (fun s => s * volume)
  match speedStage soxAvailable speedFn wav_vol speed with
  | Except.error e => Except.error e
  | Except.ok wav_speed =>
      let buf := wavfile_write ⟨[], 0⟩ rs.1 wav_speed
      let wav_base64 := b64encode (ByteStream.readAll buf)
      match audio_path with
      | none => Except.ok (rs.1, wav_base64)
      | some AudioPath.wavFile =>
          if writeOk then Except.ok (rs.1, wav_base64)
          else Except.error PyErr.osError
      | some AudioPath.pcmFile =>
          if writeOk then Except.ok (rs.1, wav_base64)
          else Except.error PyErr.osError
      | some AudioPath.otherFile => Except.ok (rs.1, wav_base64)

/-- Embeds `TTSEngine.run` (lines 259-301): for each trimmed chunk
waveform yielded by the executor's `infer` (abstracted as the oracle
`infer` applied to the sentence text and speaker id), run yields
base64(float2pcm(chunk).tobytes()).  The parameters `speed`, `volume`,
`sample_rate` and `save_path` are accepted but never read in the body,
and `postprocess` is never called. -/
def run (infer : String → Nat → List (List ℚ)) (sentence : String)
    (spk_id : Nat) (speed volume : ℚ) (sample_rate : Nat)
    (save_path : Option String) : List (List Nat) :=
  (infer sentence spk_id).map (fun wav => b64encode (pcmBytes wav))

/-- Concrete vocoder oracle for ground instances: chunk i's raw output has
exactly the contract length for L=50, block=42, pad=12, ratio=2. -/
def vocOracle (i : Nat) : List ℚ := List.replicate (extLen 50 42 12 i * 2) 0

/-- Concrete raw vocoder output for the single-chunk ground instance
L=10, block=42, pad=12, ratio=2. -/
def rawOracle : List ℚ := List.replicate (extLen 10 42 12 0 * 2) 0

/-- Identity resampler oracle for ground instances. -/
def idResample (w : List ℚ) (origRate targetRate : Nat) : List ℚ := w

/-- Identity speed-transform oracle for ground instances. -/
def idSpeedFn (w : List ℚ) (s : ℚ) : List ℚ := w

/-- Base64 decoding inverts base64 encoding on genuine byte strings. -/
theorem b64decode_b64encode :
    ∀ bs : List Nat, (∀ x ∈ bs, x < 256) → b64decode (b64encode bs) = bs
  | [], _ => rfl
  | [a], h => by
      have ha : a < 256 := h a (by simp)
      simp [b64encode, b64decode, b64Pad]
      omega
  | [a, b], h => by
      have ha : a < 256 := h a (by simp)
      have hb : b < 256 := h b (by simp)
      simp [b64encode, b64decode, b64Pad]
      rw [if_neg (by omega)]
      simp only [List.cons.injEq, and_true]
      omega
  | [a, b, c], h => by
      have ha : a < 256 := h a (by simp)
      have hb : b < 256 := h b (by simp)
      have hc : c < 256 := h c (by simp)
      simp only [b64encode, b64decode, b64Pad]
      rw [if_neg (by omega), if_neg (by omega)]
      simp only [List.cons.injEq, and_true]
      exact ⟨by omega, by omega, by omega⟩
  | a :: b :: c :: d :: rest, h => by
      have ha : a < 256 := h a (by simp)
      have hb : b < 256 := h b (by simp)
      have hc : c < 256 := h c (by simp)
      have ih : b64decode (b64encode (d :: rest)) = d :: rest :=
        b64decode_b64encode (d :: rest)
          (fun x hx => h x (by simp at hx ⊢; tauto))
      simp only [b64encode, b64decode, b64Pad]
      rw [if_neg (by omega), if_neg (by omega)]
      simp only [List.cons.injEq]
      exact ⟨by omega, by omega, by omega, ih⟩

theorem wavHeader_length (rate numSamples : Nat) :
    (wavHeader rate numSamples).length = 44 := by
  simp [wavHeader, le16, le32]

theorem wavContainer_ne_nil (rate : Nat) (wav : List ℚ) :
    wavContainer rate wav ≠ [] := by
  intro hcon
  have := congrArg List.length hcon
  simp [wavContainer, wavHeader_length] at this

/-- The data segment of the container (everything past the 44-byte header)
is exactly the PCM byte stream of the samples. -/
theorem wavContainer_drop (rate : Nat) (wav : List ℚ) :
    (wavContainer rate wav).drop 44 = pcmBytes wav := by
  have h := List.drop_left (wavHeader rate wav.length) (pcmBytes wav)
  rwa [wavHeader_length] at h

theorem le16_lt (n : Nat) : ∀ x ∈ le16 n, x < 256 := by
  simp [le16]; omega

theorem le32_lt (n : Nat) : ∀ x ∈ le32 n, x < 256 := by
  simp [le32]; omega

theorem pcm16Bytes_lt (x : ℚ) : ∀ b ∈ pcm16Bytes x, b < 256 := by
  simpa [pcm16Bytes] using le16_lt ((float2pcm x) % 65536).toNat

theorem pcmBytes_lt (wav : List ℚ) : ∀ b ∈ pcmBytes wav, b < 256 := by
  intro b hb
  simp only [pcmBytes, List.mem_flatMap] at hb
  obtain ⟨x, -, hbx⟩ := hb
  exact pcm16Bytes_lt x b hbx

theorem wavHeader_lt (rate numSamples : Nat) :
    ∀ b ∈ wavHeader rate numSamples, b < 256 := by
  intro b hb
  simp [wavHeader, le16, le32] at hb
  omega

theorem wavContainer_lt (rate : Nat) (wav : List ℚ) :
    ∀ b ∈ wavContainer rate wav, b < 256 := by
  intro b hb
  rcases List.mem_append.1 hb with h | h
  · exact wavHeader_lt rate wav.length b h
  · exact pcmBytes_lt wav b h

theorem float2pcm_bounds (x : ℚ) :
    -32768 ≤ float2pcm x ∧ float2pcm x ≤ 32767 := by
  unfold float2pcm
  refine ⟨le_max_left _ _, max_le (by norm_num) (min_le_left _ _)⟩

theorem pcmBytes_cons (x : ℚ) (rest : List ℚ) :
    pcmBytes (x :: rest) = pcm16Bytes x ++ pcmBytes rest := by
  simp [pcmBytes]

/-- Reading the PCM byte stream back yields exactly the quantized samples. -/
theorem int16OfBytes_pcmBytes (wav : List ℚ) :
    int16OfBytes (pcmBytes wav) = wav.map float2pcm := by
  induction wav with
  | nil => rfl
  | cons x rest ih =>
      have hb := float2pcm_bounds x
      rw [pcmBytes_cons]
      simp only [pcm16Bytes, le16, List.cons_append, List.nil_append,
        List.map_cons]
      simp only [int16OfBytes]
      rw [ih]
      congr 1
      split <;> omega

theorem numChunks_pos (L block : Nat) (hb : 0 < block) (hL : 0 < L) :
    0 < numChunks L block :=
  Nat.div_pos (by omega) hb

theorem numChunks_mul_ge (L block : Nat) (hb : 0 < block) :
    L ≤ numChunks L block * block := by
  have h := Nat.div_add_mod (L + block - 1) block
  have h2 : (L + block - 1) % block < block := Nat.mod_lt _ hb
  have h4 : numChunks L block * block = block * ((L + block - 1) / block) :=
    Nat.mul_comm _ _
  omega

theorem numChunks_pred_mul_lt (L block : Nat) (hb : 0 < block) (hL : 0 < L) :
    (numChunks L block - 1) * block < L := by
  have h := Nat.div_add_mod (L + block - 1) block
  have h2 : (L + block - 1) % block < block := Nat.mod_lt _ hb
  have h3 : (numChunks L block - 1) * block = numChunks L block * block - block := by
    rw [Nat.sub_mul, Nat.one_mul]
  have h4 : numChunks L block * block = block * ((L + block - 1) / block) :=
    Nat.mul_comm _ _
  omega

theorem mul_block_lt (L block i : Nat) (hb : 0 < block) (hL : 0 < L)
    (hi : i < numChunks L block) : i * block < L := by
  have h1 : i * block ≤ (numChunks L block - 1) * block :=
    Nat.mul_le_mul_right block (by omega)
  exact lt_of_le_of_lt h1 (numChunks_pred_mul_lt L block hb hL)

theorem block_le_of_two_chunks (L block : Nat) (hb : 0 < block) (hL : 0 < L)
    (h2 : 2 ≤ numChunks L block) : block < L := by
  have h := numChunks_pred_mul_lt L block hb hL
  have h1 : 1 * block ≤ (numChunks L block - 1) * block :=
    Nat.mul_le_mul_right block (by omega)
  omega

theorem succ_mul_le_of_interior (L block i : Nat) (hb : 0 < block) (hL : 0 < L)
    (hi : i + 1 < numChunks L block) : (i + 1) * block < L := by
  have h1 : (i + 1) * block ≤ (numChunks L block - 1) * block :=
    Nat.mul_le_mul_right block (by omega)
  exact lt_of_le_of_lt h1 (numChunks_pred_mul_lt L block hb hL)

/-- The per-chunk trimming written in the source agrees, chunk by chunk,
with the Overlap Trimmer contract of the spec. -/
theorem trim_eq_trimSpec (L block pad ratio : Nat) (raw : List ℚ) (i : Nat)
    (hb : 0 < block) (hL : 0 < L) (hi : i < numChunks L block)
    (hraw : raw.length = extLen L block pad i * ratio) :
    trim raw block pad ratio i (numChunks L block) =
      trimSpec raw (min (i * block) pad) i (numChunks L block)
        (coreLen L block i) ratio := by
  have hn1 : 1 ≤ numChunks L block := numChunks_pos L block hb hL
  by_cases h0 : i = 0
  · subst h0
    have hcore0 : coreLen L block 0 = min block L := by
      simp [coreLen]
    by_cases hone : numChunks L block = 1
    · have hLb : L ≤ block := by
        have h := numChunks_mul_ge L block hb
        rw [hone, one_mul] at h
        exact h
      have hext : extLen L block pad 0 = L := by
        simp [extLen, extEnd, extStart]
        omega
      have hlen : raw.length = L * ratio := by rw [hraw, hext]
      have ht1 : raw.take (block * ratio) = raw :=
        List.take_of_length_le (by
          rw [hlen]; exact Nat.mul_le_mul_right ratio hLb)
      have ht2 : raw.take (coreLen L block 0 * ratio) = raw :=
        List.take_of_length_le (by
          rw [hlen, hcore0]
          exact Nat.mul_le_mul_right ratio (by omega))
      simp [trim, trimSpec, ht1, ht2]
    · have hbl : block < L :=
        block_le_of_two_chunks L block hb hL (by omega)
      have hcb : coreLen L block 0 = block := by rw [hcore0]; omega
      simp [trim, trimSpec, hcb]
  · by_cases hlast : i = numChunks L block - 1
    · have hne : numChunks L block - 1 ≠ 0 := by omega
      simp [trim, trimSpec, h0, hlast, hne]
    · have hsm : (i + 1) * block = i * block + block := Nat.succ_mul i block
      have hint : (i + 1) * block < L :=
        succ_mul_le_of_interior L block i hb hL (by omega)
      have hcore : coreLen L block i = block := by
        simp only [coreLen]
        omega
      have harg : (min (i * block) pad + block) * ratio -
          min (i * block) pad * ratio = coreLen L block i * ratio := by
        rw [hcore, Nat.add_mul]
        omega
      simp only [trim, trimSpec, pySlice, if_neg h0, if_neg hlast]
      rw [harg]

/-- Length of the trimmed output of chunk `i`: exactly its core length
times the upsampling ratio. -/
theorem trim_length (L block pad ratio : Nat) (raw : List ℚ) (i : Nat)
    (hb : 0 < block) (hL : 0 < L) (hi : i < numChunks L block)
    (hraw : raw.length = extLen L block pad i * ratio) :
    (trim raw block pad ratio i (numChunks L block)).length =
      coreLen L block i * ratio := by
  have hn1 : 1 ≤ numChunks L block := numChunks_pos L block hb hL
  by_cases h0 : i = 0
  · subst h0
    by_cases hone : numChunks L block = 1
    · have hLb : L ≤ block := by
        have h := numChunks_mul_ge L block hb
        rw [hone, one_mul] at h
        exact h
      have hextL : extLen L block pad 0 = L := by
        simp [extLen, extEnd, extStart]
        omega
      have hcoreL : coreLen L block 0 = L := by
        simp [coreLen]
        omega
      have hml : L * ratio ≤ block * ratio := Nat.mul_le_mul_right ratio hLb
      simp [trim, List.length_take, hraw, hextL, hcoreL]
      omega
    · have hbl : block < L :=
        block_le_of_two_chunks L block hb hL (by omega)
      have hextge : block ≤ extLen L block pad 0 := by
        simp [extLen, extEnd, extStart]
        omega
      have hcoreb : coreLen L block 0 = block := by
        simp [coreLen]
        omega
      have hge : block * ratio ≤ extLen L block pad 0 * ratio :=
        Nat.mul_le_mul_right ratio hextge
      simp [trim, List.length_take, hraw, hcoreb]
      omega
  · have him : i * block < L := mul_block_lt L block i hb hL hi
    have hsm : (i + 1) * block = i * block + block := Nat.succ_mul i block
    by_cases hlast : i = numChunks L block - 1
    · have hi1 : i + 1 = numChunks L block := by omega
      have hnb : L ≤ numChunks L block * block := numChunks_mul_ge L block hb
      have hnn : (i + 1) * block = numChunks L block * block := by rw [hi1]
      have hext : extLen L block pad i =
          (L - i * block) + min (i * block) pad := by
        simp only [extLen, extEnd, extStart]
        omega
      have hcore : coreLen L block i = L - i * block := by
        simp only [coreLen]
        omega
      have hdist : ((L - i * block) + min (i * block) pad) * ratio =
          (L - i * block) * ratio + min (i * block) pad * ratio :=
        Nat.add_mul _ _ _
      simp only [trim, if_neg h0, if_pos hlast, List.length_drop, hraw, hext,
        hcore, hdist]
      omega
    · have hint : (i + 1) * block < L :=
        succ_mul_le_of_interior L block i hb hL (by omega)
      have hcore : coreLen L block i = block := by
        simp only [coreLen]
        omega
      have hextge : min (i * block) pad + block ≤ extLen L block pad i := by
        simp only [extLen, extEnd, extStart]
        omega
      have hge : (min (i * block) pad + block) * ratio ≤
          extLen L block pad i * ratio := Nat.mul_le_mul_right ratio hextge
      have hdist : (min (i * block) pad + block) * ratio =
          min (i * block) pad * ratio + block * ratio := Nat.add_mul _ _ _
      simp only [trim, if_neg h0, if_neg hlast, pySlice, List.length_take,
        List.length_drop, hraw, hcore]
      omega

theorem sum_coreLen_mul (L block ratio : Nat) (hb : 0 < block) (hL : 0 < L) :
    ∀ k, k ≤ numChunks L block →
      ((List.range k).map (fun i => coreLen L block i * ratio)).sum =
        min (k * block) L * ratio
  | 0, _ => by simp
  | k + 1, hk => by
      have ih := sum_coreLen_mul L block ratio hb hL k (by omega)
      rw [List.range_succ, List.map_append, List.sum_append]
      simp only [List.map_cons, List.map_nil, List.sum_cons, List.sum_nil]
      rw [ih]
      have hkb : k * block < L := mul_block_lt L block k hb hL (by omega)
      have hmin : min (k * block) L = k * block := by omega
      have hsm : (k + 1) * block = k * block + block := Nat.succ_mul k block
      have hmle : k * block ≤ min ((k + 1) * block) L := by omega
      have hsub : coreLen L block k * ratio =
          min ((k + 1) * block) L * ratio - k * block * ratio := by
        simp only [coreLen]
        rw [Nat.sub_mul]
      have hmul : k * block * ratio ≤ min ((k + 1) * block) L * ratio :=
        Nat.mul_le_mul_right ratio hmle
      rw [hmin, hsub]
      omega

/-- C7: for every frame count L > 0, block > 0 and pad, if the vocoder
returns exactly (extended frame count) * ratio samples for each of the
ceil(L / block) chunks of the Chunker contract, then concatenating the
trimmed chunk outputs in chunk index order yields exactly `L * ratio`
samples: no duplicated or missing samples. -/
theorem inferChunkOutputs_flatten_length (voc : Nat → List ℚ)
    (L block pad ratio : Nat) (hb : 0 < block) (hL : 0 < L)
    (hvoc : ∀ i, i < numChunks L block →
      (voc i).length = extLen L block pad i * ratio) :
    (inferChunkOutputs voc L block pad ratio).flatten.length = L * ratio := by
  rw [List.length_flatten, inferChunkOutputs, List.map_map]
  have hcongr : (List.range (numChunks L block)).map
      (List.length ∘ fun i => trim (voc i) block pad ratio i (numChunks L block)) =
      (List.range (numChunks L block)).map
        (fun i => coreLen L block i * ratio) := by
    apply List.map_congr_left
    intro i hi
    have hi2 : i < numChunks L block := List.mem_range.1 hi
    exact trim_length L block pad ratio (voc i) i hb hL hi2 (hvoc i hi2)
  rw [hcongr,
    sum_coreLen_mul L block ratio hb hL (numChunks L block) le_rfl]
  have h := numChunks_mul_ge L block hb
  have hmin : min (numChunks L block * block) L = L := by omega
  rw [hmin]

theorem pairTrace_length (f g : Nat → Event) :
    ∀ n, ((List.range n).flatMap (fun i => [f i, g i])).length = 2 * n
  | 0 => rfl
  | n + 1 => by
      rw [List.range_succ, List.flatMap_append]
      simp only [List.length_append, pairTrace_length f g n]
      simp [List.flatMap]
      omega

theorem pairTrace_getElem (f g : Nat → Event) :
    ∀ n i, i < n →
      ((List.range n).flatMap (fun j => [f j, g j]))[2 * i]? = some (f i) ∧
      ((List.range n).flatMap (fun j => [f j, g j]))[2 * i + 1]? = some (g i)
  | 0, i, h => absurd h (Nat.not_lt_zero i)
  | n + 1, i, h => by
      rw [List.range_succ, List.flatMap_append]
      have hlen := pairTrace_length f g n
      by_cases hin : i < n
      · have ih := pairTrace_getElem f g n i hin
        constructor
        · rw [List.getElem?_append, hlen, if_pos (by omega)]
          exact ih.1
        · rw [List.getElem?_append, hlen, if_pos (by omega)]
          exact ih.2
      · have hie : i = n := by omega
        subst hie
        constructor
        · rw [List.getElem?_append, hlen, if_neg (by omega)]
          have h0 : 2 * i - 2 * i = 0 := by omega
          rw [h0]
          simp [List.flatMap]
        · rw [List.getElem?_append, hlen, if_neg (by omega)]
          have h1 : 2 * i + 1 - 2 * i = 1 := by omega
          rw [h1]
          simp [List.flatMap]

theorem readAll_wavfile_write (r : Nat) (w : List ℚ) :
    ByteStream.readAll (wavfile_write ⟨[], 0⟩ r w) = wavContainer r w := by
  simp [ByteStream.readAll, wavfile_write]

theorem postprocess_ok_fst (resample : List ℚ → Nat → Nat → List ℚ)
    (speedFn : List ℚ → ℚ → List ℚ) (soxAvailable writeOk : Bool)
    (wav : List ℚ) (original_fs target_fs : Nat) (volume speed : ℚ)
    (audio_path : Option AudioPath) (res : Nat × List Nat)
    (h : postprocess resample speedFn soxAvailable writeOk wav original_fs
        target_fs volume speed audio_path = Except.ok res) :
    res.1 = (resampleStage resample wav original_fs target_fs).1 := by
  simp only [postprocess] at h
  cases hss : speedStage soxAvailable speedFn
      ((resampleStage resample wav original_fs target_fs).2.map
        (fun s => s * volume)) speed with
  | error e => rw [hss] at h; simp at h
  | ok ws =>
      rw [hss] at h
      dsimp only at h
      cases audio_path with
      | none =>
          simp only [Except.ok.injEq] at h
          rw [← h]
      | some p =>
          cases p with
          | wavFile =>
              dsimp only at h
              split at h
              · simp only [Except.ok.injEq] at h
                rw [← h]
              · simp at h
          | pcmFile =>
              dsimp only at h
              split at h
              · simp only [Except.ok.injEq] at h
                rw [← h]
              · simp at h
          | otherFile =>
              simp only [Except.ok.injEq] at h
              rw [← h]

/-- Unfolding of `postprocess` on a successful speed step with a
successful (or absent) file write. -/
theorem postprocess_eq_of_processed (resample : List ℚ → Nat → Nat → List ℚ)
    (speedFn : List ℚ → ℚ → List ℚ) (soxAvailable : Bool) (wav : List ℚ)
    (original_fs target_fs : Nat) (volume speed : ℚ)
    (audio_path : Option AudioPath) (ws : List ℚ)
    (hws : processedWav resample speedFn soxAvailable wav original_fs
        target_fs volume speed = Except.ok ws) :
    postprocess resample speedFn soxAvailable true wav original_fs target_fs
        volume speed audio_path =
      Except.ok ((resampleStage resample wav original_fs target_fs).1,
        b64encode (wavContainer
          (resampleStage resample wav original_fs target_fs).1 ws)) := by
  simp only [processedWav] at hws
  simp only [postprocess]
  rw [hws]
  dsimp only
  cases audio_path with
  | none => rw [readAll_wavfile_write]
  | some p => cases p <;> simp [readAll_wavfile_write]

/-- C1: for every waveform, native rate and config for which the speed
step succeeds, `postprocess` returns as its second result exactly the
base64 encoding of the WAV container built from the speed/volume/rate
processed samples; decoding that base64 text returns those container
bytes, and they are non-empty. -/
theorem c1_postprocess_base64 (resample : List ℚ → Nat → Nat → List ℚ)
    (speedFn : List ℚ → ℚ → List ℚ) (soxAvailable : Bool) (wav : List ℚ)
    (original_fs target_fs : Nat) (volume speed : ℚ)
    (audio_path : Option AudioPath) (ws : List ℚ)
    (hws : processedWav resample speedFn soxAvailable wav original_fs
        target_fs volume speed = Except.ok ws) :
    postprocess resample speedFn soxAvailable true wav original_fs target_fs
        volume speed audio_path =
      Except.ok ((resampleStage resample wav original_fs target_fs).1,
        b64encode (wavContainer
          (resampleStage resample wav original_fs target_fs).1 ws)) ∧
    b64decode (b64encode (wavContainer
        (resampleStage resample wav original_fs target_fs).1 ws)) =
      wavContainer (resampleStage resample wav original_fs target_fs).1 ws ∧
    wavContainer (resampleStage resample wav original_fs target_fs).1 ws ≠
      [] :=
  ⟨postprocess_eq_of_processed resample speedFn soxAvailable wav original_fs
      target_fs volume speed audio_path ws hws,
   b64decode_b64encode _ (wavContainer_lt _ _),
   wavContainer_ne_nil _ _⟩

theorem c1_postprocess_base64_witness :
    postprocess idResample idSpeedFn true true [(1 : ℚ)/2] 8000 0 1 1 none =
      Except.ok ((resampleStage idResample [(1 : ℚ)/2] 8000 0).1,
        b64encode (wavContainer
          (resampleStage idResample [(1 : ℚ)/2] 8000 0).1 [(1 : ℚ)/2])) ∧
    b64decode (b64encode (wavContainer
        (resampleStage idResample [(1 : ℚ)/2] 8000 0).1 [(1 : ℚ)/2])) =
      wavContainer (resampleStage idResample [(1 : ℚ)/2] 8000 0).1
        [(1 : ℚ)/2] ∧
    wavContainer (resampleStage idResample [(1 : ℚ)/2] 8000 0).1
      [(1 : ℚ)/2] ≠ [] :=
  c1_postprocess_base64 idResample idSpeedFn true [(1 : ℚ)/2] 8000 0 1 1
    none [(1 : ℚ)/2]
    (by simp [processedWav, speedStage, change_speed, resampleStage])

/-- C2: when target_fs is 0 or at least original_fs, resampling is
skipped: the resample stage hands the input waveform unchanged to the
volume step and reports original_fs.  For target_fs = original_fs the
source does call the external resampler, but librosa returns its input
unchanged when both rates coincide (hypothesis `hid`, librosa's
documented contract). -/
theorem c2_resample_skip (resample : List ℚ → Nat → Nat → List ℚ)
    (hid : ∀ w r, resample w r r = w) (wav : List ℚ)
    (original_fs target_fs : Nat)
    (h : target_fs = 0 ∨ original_fs ≤ target_fs) :
    resampleStage resample wav original_fs target_fs = (original_fs, wav) := by
  unfold resampleStage
  by_cases h0 : target_fs = 0
  · rw [if_pos (Or.inl h0)]
  · have hle : original_fs ≤ target_fs := by tauto
    rcases Nat.lt_or_ge original_fs target_fs with hlt | hge
    · rw [if_pos (Or.inr hlt)]
    · have heq : target_fs = original_fs := le_antisymm hge hle
      rw [if_neg (by omega), heq, hid]

theorem c2_resample_skip_witness :
    resampleStage idResample [(1 : ℚ)/2] 24000 24000 =
      (24000, [(1 : ℚ)/2]) :=
  c2_resample_skip idResample (fun _ _ => rfl) [(1 : ℚ)/2] 24000 24000
    (Or.inr le_rfl)

/-- C3: for a language outside zh/en the streaming inference does NOT
fail fast with a ConfigurationError: the source only prints a warning and
then crashes with NameError when line 82 reads the unbound `phone_ids`.
Evaluated here at the failing input lang="ja". -/
theorem c3_unsupported_lang_raises_nameError :
    inferFrontendStep "ja" [[1, 2]] [[3]] = Except.error PyErr.nameError ∧
    inferFrontendStep "ja" [[1, 2]] [[3]] ≠
      Except.error PyErr.configurationError := by
  constructor
  · rfl
  · intro hcontra
    simp [inferFrontendStep, inferPhoneIds] at hcontra

/-- C4: on a platform without the speed-change mechanism, a request with
speed different from 1 surfaces the recoverable server exception to the
caller, while a request with speed = 1 still completes and returns the
encoded audio (no crash from an unassigned `wav_speed`). -/
theorem c4_speed_unavailable (resample : List ℚ → Nat → Nat → List ℚ)
    (speedFn : List ℚ → ℚ → List ℚ) (wav : List ℚ)
    (original_fs target_fs : Nat) (volume speed : ℚ)
    (audio_path : Option AudioPath) :
    (speed ≠ 1 → postprocess resample speedFn false true wav original_fs
        target_fs volume speed audio_path =
      Except.error PyErr.serverBaseException) ∧
    (speed = 1 → postprocess resample speedFn false true wav original_fs
        target_fs volume speed audio_path =
      Except.ok ((resampleStage resample wav original_fs target_fs).1,
        b64encode (wavContainer
          (resampleStage resample wav original_fs target_fs).1
          ((resampleStage resample wav original_fs target_fs).2.map
            (fun s => s * volume))))) := by
  constructor
  · intro hne
    simp [postprocess, speedStage, change_speed, hne]
  · intro heq
    subst heq
    have hws : processedWav resample speedFn false wav original_fs target_fs
        volume 1 = Except.ok
          ((resampleStage resample wav original_fs target_fs).2.map
            (fun s => s * volume)) := by
      simp [processedWav, speedStage, change_speed]
    exact postprocess_eq_of_processed resample speedFn false wav original_fs
      target_fs volume 1 audio_path _ hws

theorem c4_speed_unavailable_witness :
    postprocess idResample idSpeedFn false true [(1 : ℚ)/2] 8000 0 1
        (3/2) none = Except.error PyErr.serverBaseException ∧
    postprocess idResample idSpeedFn false true [(1 : ℚ)/2] 8000 0 1 1
        none =
      Except.ok ((resampleStage idResample [(1 : ℚ)/2] 8000 0).1,
        b64encode (wavContainer
          (resampleStage idResample [(1 : ℚ)/2] 8000 0).1
          ((resampleStage idResample [(1 : ℚ)/2] 8000 0).2.map
            (fun s => s * 1)))) :=
  ⟨(c4_speed_unavailable idResample idSpeedFn [(1 : ℚ)/2] 8000 0 1 (3/2)
      none).1 (by norm_num),
   (c4_speed_unavailable idResample idSpeedFn [(1 : ℚ)/2] 8000 0 1 1
      none).2 rfl⟩

/-- C5 as stated is refuted: with a .wav output path whose write fails,
`postprocess` propagates the exception (the source has no try/except
around the save block) instead of still returning the computed result. -/
theorem c5_counterexample :
    postprocess idResample idSpeedFn true false [(1 : ℚ)/2] 8000 0 1 1
      (some AudioPath.wavFile) = Except.error PyErr.osError := by
  simp [postprocess, speedStage, change_speed, resampleStage]

/-- C5 amended: a failure writing the output file is not swallowed — it
propagates out of `postprocess` and the computed (rate, base64) result is
lost; that result is returned only when the write succeeds (or no .wav or
.pcm path was given). -/
theorem c5_save_failure_aborts (resample : List ℚ → Nat → Nat → List ℚ)
    (speedFn : List ℚ → ℚ → List ℚ) (soxAvailable : Bool) (wav : List ℚ)
    (original_fs target_fs : Nat) (volume speed : ℚ) (p : AudioPath)
    (ws : List ℚ)
    (hws : processedWav resample speedFn soxAvailable wav original_fs
        target_fs volume speed = Except.ok ws)
    (hext : p = AudioPath.wavFile ∨ p = AudioPath.pcmFile) :
    postprocess resample speedFn soxAvailable false wav original_fs
        target_fs volume speed (some p) = Except.error PyErr.osError ∧
    postprocess resample speedFn soxAvailable true wav original_fs
        target_fs volume speed (some p) =
      Except.ok ((resampleStage resample wav original_fs target_fs).1,
        b64encode (wavContainer
          (resampleStage resample wav original_fs target_fs).1 ws)) := by
  constructor
  · simp only [processedWav] at hws
    simp only [postprocess]
    rw [hws]
    dsimp only
    rcases hext with h1 | h1 <;> subst h1 <;> simp
  · exact postprocess_eq_of_processed resample speedFn soxAvailable wav
      original_fs target_fs volume speed (some p) ws hws

theorem c5_save_failure_aborts_witness :
    postprocess idResample idSpeedFn true false [(1 : ℚ)/2] 8000 0 1 1
      (some AudioPath.pcmFile) = Except.error PyErr.osError ∧
    postprocess idResample idSpeedFn true true [(1 : ℚ)/2] 8000 0 1 1
      (some AudioPath.pcmFile) =
      Except.ok ((resampleStage idResample [(1 : ℚ)/2] 8000 0).1,
        b64encode (wavContainer
          (resampleStage idResample [(1 : ℚ)/2] 8000 0).1 [(1 : ℚ)/2])) :=
  c5_save_failure_aborts idResample idSpeedFn true [(1 : ℚ)/2] 8000 0 1 1
    AudioPath.pcmFile [(1 : ℚ)/2]
    (by simp [processedWav, speedStage, change_speed, resampleStage])
    (Or.inr rfl)

/-- C6: the per-chunk trimming of the streaming loop implements exactly
the Overlap Trimmer contract with frontPad = min(i*block, pad): chunk 0
keeps the first coreLen*ratio samples, the last chunk (when there are at
least two) drops the first frontPad*ratio samples and keeps the
remainder, an interior chunk drops frontPad*ratio samples and keeps
exactly the next coreLen*ratio samples; in the single-chunk case all
output samples are kept. -/
theorem c6_trim_matches_contract (L block pad ratio i : Nat) (raw : List ℚ)
    (hb : 0 < block) (hL : 0 < L) (hi : i < numChunks L block)
    (hraw : raw.length = extLen L block pad i * ratio) :
    trim raw block pad ratio i (numChunks L block) =
      trimSpec raw (min (i * block) pad) i (numChunks L block)
        (coreLen L block i) ratio ∧
    (numChunks L block = 1 →
      trim raw block pad ratio i (numChunks L block) = raw) := by
  refine ⟨trim_eq_trimSpec L block pad ratio raw i hb hL hi hraw, ?_⟩
  intro hone
  have h0 : i = 0 := by omega
  subst h0
  have hLb : L ≤ block := by
    have h := numChunks_mul_ge L block hb
    rw [hone, one_mul] at h
    exact h
  have hextL : extLen L block pad 0 = L := by
    simp [extLen, extEnd, extStart]
    omega
  simp only [trim, if_pos rfl]
  apply List.take_of_length_le
  rw [hraw, hextL]
  exact Nat.mul_le_mul_right ratio hLb

theorem c6_trim_matches_contract_witness :
    trim rawOracle 42 12 2 0 (numChunks 10 42) =
      trimSpec rawOracle (min (0 * 42) 12) 0 (numChunks 10 42)
        (coreLen 10 42 0) 2 ∧
    (numChunks 10 42 = 1 →
      trim rawOracle 42 12 2 0 (numChunks 10 42) = rawOracle) :=
  c6_trim_matches_contract 10 42 12 2 0 rawOracle (by decide) (by decide)
    (by decide) (by simp [rawOracle])

theorem c7_concat_witness :
    (inferChunkOutputs vocOracle 50 42 12 2).flatten.length = 50 * 2 :=
  inferChunkOutputs_flatten_length vocOracle 50 42 12 2 (by decide)
    (by decide) (fun i _ => by simp [vocOracle])

/-- C8: the generator loop processes chunks strictly in index order: the
event trace is one vocoder call followed immediately by the yield of that
chunk's trimmed audio, for each chunk index in order.  Hence the k-th
yielded value is chunk k's trimmed output (at position 2k+1) and chunk
k+1's vocoder call (at position 2k+2) only happens after chunk k's yield. -/
theorem c8_streaming_order (voc : Nat → List ℚ) (block pad ratio n : Nat) :
    (inferTrace voc block pad ratio n).length = 2 * n ∧
    ∀ i, i < n →
      (inferTrace voc block pad ratio n)[2 * i]? =
        some (Event.vocCall i) ∧
      (inferTrace voc block pad ratio n)[2 * i + 1]? =
        some (Event.yieldChunk i (trim (voc i) block pad ratio i n)) := by
  refine ⟨?_, ?_⟩ <;> simp only [inferTrace]
  · exact pairTrace_length _ _ n
  · intro i hi
    exact pairTrace_getElem _ _ n i hi

theorem c8_streaming_order_witness :
    (inferTrace vocOracle 42 12 2 2).length = 2 * 2 ∧
    (inferTrace vocOracle 42 12 2 2)[2 * 1]? = some (Event.vocCall 1) ∧
    (inferTrace vocOracle 42 12 2 2)[2 * 1 + 1]? =
      some (Event.yieldChunk 1 (trim (vocOracle 1) 42 12 2 1 2)) :=
  ⟨(c8_streaming_order vocOracle 42 12 2 2).1,
   ((c8_streaming_order vocOracle 42 12 2 2).2 1 (by decide)).1,
   ((c8_streaming_order vocOracle 42 12 2 2).2 1 (by decide)).2⟩

/-- C9: `postprocess` with target_fs = 0, volume = 1, speed = 1 is the
identity up to 16-bit PCM quantization: it reports the native rate,
returns the base64 text of the WAV container of the unmodified samples,
and decoding that text gives a container whose data segment is exactly
the input waveform quantized sample-by-sample to PCM. -/
theorem c9_postprocess_identity (resample : List ℚ → Nat → Nat → List ℚ)
    (speedFn : List ℚ → ℚ → List ℚ) (soxAvailable : Bool) (wav : List ℚ)
    (original_fs : Nat) :
    postprocess resample speedFn soxAvailable true wav original_fs 0 1 1
        none =
      Except.ok (original_fs, b64encode (wavContainer original_fs wav)) ∧
    int16OfBytes
        ((b64decode (b64encode (wavContainer original_fs wav))).drop 44) =
      wav.map float2pcm := by
  have hrs : resampleStage resample wav original_fs 0 = (original_fs, wav) := by
    simp [resampleStage]
  have hws : processedWav resample speedFn soxAvailable wav original_fs 0
      1 1 = Except.ok wav := by
    simp [processedWav, speedStage, change_speed, hrs]
  constructor
  · have h := postprocess_eq_of_processed resample speedFn soxAvailable wav
      original_fs 0 1 1 none wav hws
    rw [h, hrs]
  · rw [b64decode_b64encode _ (wavContainer_lt _ _), wavContainer_drop]
    exact int16OfBytes_pcmBytes wav

/-- C10: the chunk sequence yielded by `run` depends only on the sentence
and the speaker id: `speed`, `volume`, `sample_rate` and `save_path` are
parameters of run but its body never reads them and never calls
`postprocess`, so varying them cannot change the yielded chunks. -/
theorem c10_run_ignores_postprocess_params
    (infer : String → Nat → List (List ℚ)) (sentence : String)
    (spk_id : Nat) (speed1 volume1 : ℚ) (sample_rate1 : Nat)
    (save_path1 : Option String) (speed2 volume2 : ℚ) (sample_rate2 : Nat)
    (save_path2 : Option String) :
    run infer sentence spk_id speed1 volume1 sample_rate1 save_path1 =
      run infer sentence spk_id speed2 volume2 sample_rate2 save_path2 :=
  rfl

end TTSOnline
